import Mathlib

/-!
Verification of the asynchronous dispatch engine of
`src/include/spdlog/details/async_log_helper.h` (class
`spdlog::details::async_log_helper`).

The C++ class is shallowly embedded as pure Lean functions over explicit
states.  Time points of `std::chrono::steady_clock` are modelled as `Nat`
nanosecond counts; C++ exceptions are modelled as explicit outcome values;
the bounded MPMC queue (whose implementation lives outside this part of the
repository) is modelled through its observable contract: the queue contents
form a FIFO list and the success of each non-blocking try-operation under
concurrency is supplied by an oracle of attempt results.
-/

namespace Spdlog

/-- Modelled from the spec: `details::log_msg` (from `details/log_msg.h`, not
under `src/`) — the producer-owned Log Record: logical source name, severity
level, timestamp, rendered/raw message bytes.  The severity level and the
timestamp are abstracted as naturals; `raw` holds the raw message bytes. -/
structure log_msg where
  logger_name : String
  level : Nat
  time : Nat
  raw : String
  deriving Repr, DecidableEq, Inhabited

/-- Modelled from the spec: `log_msg::clear` (from `details/log_msg.h`, not
under `src/`) resets the record to an empty state, so that filling it
afterwards is independent of its previous content. -/
def log_msg.clear (_ : log_msg) : log_msg :=
  { logger_name := "", level := 0, time := 0, raw := "" }

/-- Embeds `async_log_helper::async_msg`: the owned message envelope carried
through the queue.  Field for field the same data as in the source:
`logger_name`, `level`, `time` and the owned text buffer `txt`. -/
structure async_msg where
  logger_name : String
  level : Nat
  time : Nat
  txt : String
  deriving Repr, DecidableEq, Inhabited

/-- Embeds the converting constructor `async_msg::async_msg(const log_msg& m)`:
copies `m.logger_name`, `m.level`, `m.time` and builds `txt` from
`m.raw.data(), m.raw.size()` (the whole raw buffer). -/
def async_msg.ofLogMsg (m : log_msg) : async_msg :=
  { logger_name := m.logger_name
    level := m.level
    time := m.time
    txt := m.raw }

/-- Embeds the move constructor `async_msg::async_msg(async_msg&& other)`:
every field is taken over from `other` (value semantics: the resulting
envelope carries exactly the moved-from fields). -/
def async_msg.moveCtor (other : async_msg) : async_msg :=
  { logger_name := other.logger_name
    level := other.level
    time := other.time
    txt := other.txt }

/-- Embeds `async_msg::fill_log_msg(log_msg& msg)`: first `msg.clear()`, then
the fields `logger_name`, `level` and `time` of the envelope are written into
`msg`, and `msg.raw << txt` appends the owned text to the cleared raw
buffer. -/
def async_msg.fill_log_msg (a : async_msg) (msg : log_msg) : log_msg :=
  let m := msg.clear
  { m with
    logger_name := a.logger_name
    level := a.level
    time := a.time
    raw := m.raw ++ a.txt }

/-- Embeds `spdlog_ex` — the exception type thrown across the engine,
carrying a description string (the result of `what()`). -/
inductive spdlog_ex where
  | mk (what : String) : spdlog_ex
  deriving Repr, DecidableEq

/-! ## Backpressure policy: `sleep_or_yield` -/

/-- Observable effect of one call to `async_log_helper::sleep_or_yield`:
return immediately (spin), call `std::this_thread::yield()`, or call
`sleep_for` with the given duration in nanoseconds. -/
inductive WaitAction where
  | spin : WaitAction
  | yieldNow : WaitAction
  | sleepFor (ns : Nat) : WaitAction
  deriving Repr, DecidableEq

/-- Duration of `n` milliseconds expressed in the nanosecond time unit of the
model (`std::chrono::milliseconds(n)` against a nanosecond-resolution
`steady_clock`). -/
def msNS (n : Nat) : Nat := n * 1000000

/-- Embeds `async_log_helper::sleep_or_yield(last_op_time)` as a function of
`time_since_op = clock::now() - last_op_time` (nanoseconds):
spin up to 1 ms; yield up to 10 ms; sleep for half of the duration since the
last op up to 100 ms; otherwise sleep for 100 ms.  `time_since_op / 2` is the
integer division `std::chrono` performs on the duration representation. -/
def sleep_or_yield (time_since_op : Nat) : WaitAction :=
  if time_since_op ≤ msNS 1 then .spin
  else if time_since_op ≤ msNS 10 then .yieldNow
  else if time_since_op ≤ msNS 100 then .sleepFor (time_since_op / 2)
  else .sleepFor (msNS 100)

/-! ## Engine state and the failure slot -/

/-- Shared state of `async_log_helper` as observed by producers and the
worker: the `_active` flag, the worker-failure slot `_last_workerthread_ex`
(the `shared_ptr<spdlog_ex>`, holding the stored description when non-null),
and the queue contents `_q`, oldest first. -/
structure HelperState where
  active : Bool
  last_workerthread_ex : Option String
  q : List async_msg
  deriving Repr, DecidableEq

/-- Embeds `async_log_helper::throw_if_bad_worker`: if
`_last_workerthread_ex` is set, it is moved out, the slot is reset, and the
exception is thrown (returned as `some`); otherwise, if `_active` is false,
an "async logger is not active" exception is thrown; otherwise nothing is
thrown.  Returns the updated state together with the thrown exception. -/
def throw_if_bad_worker (s : HelperState) : HelperState × Option spdlog_ex :=
  match s.last_workerthread_ex with
  | some w => ({ s with last_workerthread_ex := none }, some (.mk w))
  | none =>
    if !s.active then (s, some (.mk "async logger is not active"))
    else (s, none)

/-! ## Worker-side processing -/

/-- Description stored into the failure slot when the worker catches a
`std::exception` whose `what()` is `w`
(`"async_logger worker thread exception: " + ex.what()`). -/
def worker_ex_msg (w : String) : String :=
  "async_logger worker thread exception: " ++ w

/-- Runs the sink loop `for (auto &s : _sinks) s->log(incoming_log_msg);`
starting at sink index `i`.  Each sink is a fallible write operation; the
loop stops at the first sink that throws.  Returns the indices of the sinks
that were invoked with the message, in registration order, together with the
thrown description if any. -/
def run_sinks_from (fm : log_msg) (i : Nat) :
    List (log_msg → Except String Unit) → List Nat × Option String
  | [] => ([], none)
  | snk :: rest =>
    match snk fm with
    | .ok _ =>
      let r := run_sinks_from fm (i + 1) rest
      (i :: r.1, r.2)
    | .error w => ([i], some w)

/-- Body of the `try` block of `process_next_msg` for one dequeued envelope:
`incoming_async_msg.fill_log_msg(incoming_log_msg)` on a fresh record, then
`_formatter->format(incoming_log_msg)` (fallible, producing the formatted
record), then every sink in registration order.  Returns the sink indices
that received the message and the first thrown description if any. -/
def process_msg (fmt : log_msg → Except String log_msg)
    (sinks : List (log_msg → Except String Unit)) (a : async_msg) :
    List Nat × Option String :=
  match fmt (a.fill_log_msg default) with
  | .error w => ([], some w)
  | .ok fm => run_sinks_from fm 0 sinks

/-- Embeds `async_log_helper::process_next_msg`: dequeue one envelope if
available; process it, catching any exception from the formatter or a sink
and recording it into `_last_workerthread_ex` (overwriting any earlier
value); return `true` iff a message was available.  The third component is a
ghost trace entry: the processed envelope with the sink indices it
reached. -/
def process_next_msg (fmt : log_msg → Except String log_msg)
    (sinks : List (log_msg → Except String Unit)) (s : HelperState) :
    HelperState × Bool × Option (async_msg × List Nat) :=
  match s.q with
  | [] => (s, false, none)
  | a :: rest =>
    match process_msg fmt sinks a with
    | (delivered, some w) =>
      ({ s with q := rest, last_workerthread_ex := some (worker_ex_msg w) },
        true, some (a, delivered))
    | (delivered, none) =>
      ({ s with q := rest }, true, some (a, delivered))

/-- Embeds the inner drain loop `while (process_next_msg(last_pop));` of
`worker_loop`: keep processing while messages are available, stopping at the
first empty-queue observation.  Returns the state at loop exit and the ghost
trace of processed envelopes with the sink indices each reached. -/
def drain_loop (fmt : log_msg → Except String log_msg)
    (sinks : List (log_msg → Except String Unit)) (s : HelperState) :
    HelperState × List (async_msg × List Nat) :=
  if h : s.q.length = 0 then (s, [])
  else
    let step := process_next_msg fmt sinks s
    let rest := drain_loop fmt sinks step.1
    (rest.1, step.2.2.toList ++ rest.2)
termination_by s.q.length
decreasing_by
  rcases hq : s.q with _ | ⟨a, tl⟩
  · exact absurd (by simp [hq]) h
  · simp only [process_next_msg, hq]
    rcases process_msg fmt sinks a with ⟨d, w⟩
    cases w <;> simp [hq]

/-! ## Timed wait-reference models (for the backpressure reference point) -/

/-- One try-dequeue observation of the worker loop: either a successful pop
(carrying the `clock::now()` value at that moment) or an empty-queue
observation. -/
inductive PopEvent where
  | popped (now : Nat) : PopEvent
  | emptyQ : PopEvent
  deriving Repr, DecidableEq

/-- Reference time points the worker passes to `sleep_or_yield` across a run
of `worker_loop` / `process_next_msg`: the variable `last_pop` starts as
`clock::now()` at loop entry, is set to `clock::now()` at every successful
dequeue, and is passed as `last_op_time` whenever the queue is observed
empty. -/
def worker_sleep_refs (last_pop : Nat) : List PopEvent → List Nat
  | [] => []
  | .popped now :: rest => worker_sleep_refs now rest
  | .emptyQ :: rest => last_pop :: worker_sleep_refs last_pop rest

/-- Value of the worker variable `last_pop` after consuming `events`,
starting from `last_pop`: the time of the most recent successful dequeue, or
the starting value if none occurred. -/
def last_pop_after (last_pop : Nat) : List PopEvent → Nat
  | [] => last_pop
  | .popped now :: rest => last_pop_after now rest
  | .emptyQ :: rest => last_pop_after last_pop rest

/-- Reference time points emitted by the retry loop
`do { sleep_or_yield(last_op_time); } while (!_q.enqueue(...))`: every
iteration passes the same captured `ref`, and the loop ends at the first
successful enqueue attempt. -/
def retry_refs (ref : Nat) : List Bool → List Nat
  | [] => []
  | ok :: rest => ref :: (if ok then [] else retry_refs ref rest)

/-- Sequence of reference time points a producer passes to `sleep_or_yield`
within one `log` call, per the source: if the first try-enqueue fails,
`last_op_time` is captured by `clock::now()` at that moment (`failNow`) and
is passed unchanged on every retry iteration until an enqueue succeeds;
if the first attempt succeeds no wait happens at all. -/
def log_sleep_refs (firstOk : Bool) (failNow : Nat) (retries : List Bool) :
    List Nat :=
  if firstOk then [] else retry_refs failNow retries

/-- Spec-side counterpart of `log_sleep_refs`, following the words of the
claim: the reference timestamp supplied by the producer is the time of the
last successful queue operation (`lastSuccess`), for every wait. -/
def log_sleep_refs_spec (lastSuccess : Nat) (firstOk : Bool)
    (retries : List Bool) : List Nat :=
  if firstOk then [] else retry_refs lastSuccess retries

/-! ## Producer-side `log` -/

/-- Outcome of one `log` call: an exception raised to the caller (with the
state at the raise), a successful return after the envelope was enqueued
(with the state and the number of `sleep_or_yield` calls made), or — when the
attempt oracle is exhausted without a success — a call that has not returned
yet. -/
inductive LogOutcome where
  | raised (e : spdlog_ex) (s : HelperState) : LogOutcome
  | enqueued (s : HelperState) (sleeps : Nat) : LogOutcome
  | blocked : LogOutcome
  deriving Repr, DecidableEq

/-- Retry phase of `log`:
`do { sleep_or_yield(last_op_time); } while (!_q.enqueue(std::move(new_msg)))`.
Each iteration performs one wait and one try-enqueue whose outcome is the
next oracle entry; `sleeps` counts the waits performed so far. -/
def log_retry (s : HelperState) (m : async_msg) :
    List Bool → Nat → LogOutcome
  | [], _ => .blocked
  | ok :: rest, sleeps =>
    if ok then .enqueued { s with q := s.q ++ [m] } (sleeps + 1)
    else log_retry s m rest (sleeps + 1)

/-- Embeds `async_log_helper::log(msg)`: `throw_if_bad_worker()` runs first —
a thrown exception aborts the call before the envelope is even built — then
the envelope `async_msg new_msg(msg)` is constructed and try-enqueued; on
failure the call enters the retry loop until an enqueue succeeds.
`attempts` is the oracle of try-enqueue outcomes (the head is the initial
attempt), standing for the concurrent availability of queue slots. -/
def log (s : HelperState) (msg : log_msg) (attempts : List Bool) :
    LogOutcome :=
  match throw_if_bad_worker s with
  | (s1, some e) => .raised e s1
  | (s1, none) =>
    match attempts with
    | [] => .blocked
    | first :: rest =>
      if first then
        .enqueued { s1 with q := s1.q ++ [async_msg.ofLogMsg msg] } 0
      else log_retry s1 (async_msg.ofLogMsg msg) rest 0

/-! ## Worker-level transition system (for the shutdown protocol) -/

/-- Program points of the worker thread inside `worker_loop`: at the outer
`while (_active)` check, inside the inner drain loop (about to call
`process_next_msg`), or terminated. -/
inductive WPc where
  | outer : WPc
  | inner : WPc
  | stopped : WPc
  deriving Repr, DecidableEq

/-- Interleaved view of the worker loop together with its environment: the
worker program point, the `_active` flag, the queue contents and the ghost
list of messages the worker has already dequeued and dispatched. -/
structure WorkerLTS where
  pc : WPc
  active : Bool
  q : List async_msg
  delivered : List async_msg
  deriving Repr, DecidableEq

/-- Small-step semantics of `worker_loop` interleaved with its environment.
Worker steps: the outer check enters the drain loop while `_active` is true
and exits to `stopped` once it is false; inside the drain loop,
`process_next_msg` either pops and dispatches the oldest envelope or, on an
empty queue, returns false so control reaches the outer check.  Environment
steps: an in-flight producer completes a try-enqueue; `join_worker` (the
destructor) sets `_active` to false. -/
inductive WStep : WorkerLTS → WorkerLTS → Prop where
  | outer_continue (s : WorkerLTS) : s.pc = .outer → s.active = true →
      WStep s { s with pc := .inner }
  | outer_exit (s : WorkerLTS) : s.pc = .outer → s.active = false →
      WStep s { s with pc := .stopped }
  | inner_pop (s : WorkerLTS) (a : async_msg) (rest : List async_msg) :
      s.pc = .inner → s.q = a :: rest →
      WStep s { s with q := rest, delivered := s.delivered ++ [a] }
  | inner_empty (s : WorkerLTS) : s.pc = .inner → s.q = [] →
      WStep s { s with pc := .outer }
  | env_enqueue (s : WorkerLTS) (a : async_msg) :
      WStep s { s with q := s.q ++ [a] }
  | env_shutdown (s : WorkerLTS) :
      WStep s { s with active := false }

/-- The worker-only fragment of `WStep`: the steps the worker thread itself
performs, with no interleaved environment activity (no further enqueues, no
further flag changes). -/
inductive WorkerOnlyStep : WorkerLTS → WorkerLTS → Prop where
  | outer_continue (s : WorkerLTS) : s.pc = .outer → s.active = true →
      WorkerOnlyStep s { s with pc := .inner }
  | outer_exit (s : WorkerLTS) : s.pc = .outer → s.active = false →
      WorkerOnlyStep s { s with pc := .stopped }
  | inner_pop (s : WorkerLTS) (a : async_msg) (rest : List async_msg) :
      s.pc = .inner → s.q = a :: rest →
      WorkerOnlyStep s { s with q := rest, delivered := s.delivered ++ [a] }
  | inner_empty (s : WorkerLTS) : s.pc = .inner → s.q = [] →
      WorkerOnlyStep s { s with pc := .outer }

/-! ## Concrete fixtures (used by witnesses and counterexamples) -/

/-- Concrete formatter that always succeeds, leaving the record as is. -/
def fmtId : log_msg → Except String log_msg := fun m => Except.ok m

/-- Concrete formatter that always throws, with description "fmtboom". -/
def fmtFail : log_msg → Except String log_msg := fun _ => Except.error "fmtboom"

/-- Concrete sink whose write always succeeds. -/
def sinkOk : log_msg → Except String Unit := fun _ => Except.ok ()

/-- Concrete sink whose write always throws, with description "sinkboom". -/
def sinkFail : log_msg → Except String Unit := fun _ => Except.error "sinkboom"

/-- Concrete envelope used in witnesses. -/
def msgA : async_msg := { logger_name := "n", level := 1, time := 2, txt := "t" }

/-- Concrete envelope used in the shutdown counterexample. -/
def msgB : async_msg := { logger_name := "n", level := 1, time := 3, txt := "B" }

/-- Concrete log record used in witnesses. -/
def recB : log_msg := { logger_name := "client", level := 2, time := 5, raw := "B" }

/-! ## Helper lemmas -/

/-- Every reference emitted by the retry loop is the single captured one. -/
theorem retry_refs_mem (ref : Nat) (l : List Bool) (r : Nat)
    (h : r ∈ retry_refs ref l) : r = ref := by
  induction l with
  | nil => simp [retry_refs] at h
  | cons ok rest ih =>
    cases ok <;> simp [retry_refs] at h
    · rcases h with h | h
      · exact h
      · exact ih h
    · exact h

/-- If `throw_if_bad_worker` has nothing to throw, it leaves the state
unchanged. -/
theorem throw_if_bad_worker_ok (s : HelperState)
    (hslot : s.last_workerthread_ex = none) (hact : s.active = true) :
    throw_if_bad_worker s = (s, none) := by
  simp [throw_if_bad_worker, hslot, hact]

/-- If the failure slot is set, `log` raises it, clears the slot and changes
nothing else (in particular it does not touch the queue). -/
theorem log_slot_raises (s : HelperState) (msg : log_msg)
    (attempts : List Bool) (w : String) (h : s.last_workerthread_ex = some w) :
    log s msg attempts =
      LogOutcome.raised (spdlog_ex.mk w) { s with last_workerthread_ex := none } := by
  simp [log, throw_if_bad_worker, h]

/-- The retry loop never produces a raised outcome. -/
theorem log_retry_not_raised (s : HelperState) (m : async_msg)
    (l : List Bool) (k : Nat) (e : spdlog_ex) (t : HelperState) :
    log_retry s m l k ≠ LogOutcome.raised e t := by
  induction l generalizing k with
  | nil => simp [log_retry]
  | cons ok rest ih =>
    cases ok <;> simp [log_retry]
    exact ih (k + 1)

/-- With an empty failure slot and an active engine, `log` never raises. -/
theorem log_not_raised (s : HelperState) (msg : log_msg) (attempts : List Bool)
    (hslot : s.last_workerthread_ex = none) (hact : s.active = true)
    (e : spdlog_ex) (t : HelperState) :
    log s msg attempts ≠ LogOutcome.raised e t := by
  simp only [log, throw_if_bad_worker_ok s hslot hact]
  cases attempts with
  | nil => simp
  | cons first rest =>
    cases first <;> simp
    exact log_retry_not_raised _ _ _ _ _ _

/-- If every retry attempt fails, the retry loop has not returned. -/
theorem log_retry_all_false (s : HelperState) (m : async_msg)
    (l : List Bool) (k : Nat) (h : ∀ b ∈ l, b = false) :
    log_retry s m l k = LogOutcome.blocked := by
  induction l generalizing k with
  | nil => simp [log_retry]
  | cons ok rest ih =>
    have hok : ok = false := h ok (by simp)
    subst hok
    simp [log_retry]
    exact ih (k + 1) (fun b hb => h b (by simp [hb]))

/-- If the attempts before the first success all fail, the retry loop returns
with the envelope appended after one wait per preceding failure. -/
theorem log_retry_first_true (s : HelperState) (m : async_msg)
    (pre post : List Bool) (k : Nat) (h : ∀ b ∈ pre, b = false) :
    log_retry s m (pre ++ true :: post) k =
      LogOutcome.enqueued { s with q := s.q ++ [m] } (k + pre.length + 1) := by
  induction pre generalizing k with
  | nil => simp [log_retry]
  | cons ok rest ih =>
    have hok : ok = false := h ok (by simp)
    subst hok
    simp only [List.cons_append, log_retry, Bool.false_eq_true, if_false,
      List.append_eq]
    rw [ih (k + 1) (fun b hb => h b (by simp [hb]))]
    simp only [List.length_cons]
    congr 1
    omega

/-- Running the sink loop over sinks that all succeed invokes every sink, in
order, and throws nothing. -/
theorem run_sinks_from_all_ok (fm : log_msg)
    (sinks : List (log_msg → Except String Unit))
    (h : ∀ f ∈ sinks, f fm = Except.ok ()) (i : Nat) :
    run_sinks_from fm i sinks = (List.range' i sinks.length, none) := by
  induction sinks generalizing i with
  | nil => simp [run_sinks_from]
  | cons f rest ih =>
    have hf : f fm = Except.ok () := h f (by simp)
    simp [run_sinks_from, hf, ih (fun g hg => h g (by simp [hg])) (i + 1),
      List.range'_succ]

/-- Running the sink loop where the sinks of `pre` succeed and `fbad` throws
invokes exactly the sinks of `pre` and then `fbad`, and stops there. -/
theorem run_sinks_from_prefix_ok (fm : log_msg)
    (pre post : List (log_msg → Except String Unit))
    (fbad : log_msg → Except String Unit) (w : String)
    (hpre : ∀ f ∈ pre, f fm = Except.ok ())
    (hbad : fbad fm = Except.error w) (i : Nat) :
    run_sinks_from fm i (pre ++ fbad :: post) =
      (List.range' i (pre.length + 1), some w) := by
  induction pre generalizing i with
  | nil => simp [run_sinks_from, hbad, List.range'_succ]
  | cons f rest ih =>
    have hf : f fm = Except.ok () := hpre f (by simp)
    simp [run_sinks_from, hf, ih (fun g hg => hpre g (by simp [hg])) (i + 1),
      List.range'_succ]

/-! ## Claim theorems -/

/-- C5: the backpressure wait function, given the elapsed time `e` since the
reference timestamp, performs no sleep and no yield when `e ≤ 1` ms; yields
without sleeping when `1 ms < e ≤ 10 ms`; sleeps for exactly `e / 2` when
`10 ms < e ≤ 100 ms`; and sleeps for exactly 100 ms when `e > 100 ms`. -/
theorem sleep_or_yield_ladder (e : Nat) :
    (e ≤ msNS 1 → sleep_or_yield e = WaitAction.spin) ∧
    (msNS 1 < e → e ≤ msNS 10 → sleep_or_yield e = WaitAction.yieldNow) ∧
    (msNS 10 < e → e ≤ msNS 100 → sleep_or_yield e = WaitAction.sleepFor (e / 2)) ∧
    (msNS 100 < e → sleep_or_yield e = WaitAction.sleepFor (msNS 100)) := by
  unfold sleep_or_yield
  simp only [msNS]
  refine ⟨fun h1 => ?_, fun h1 h2 => ?_, fun h1 h2 => ?_, fun h1 => ?_⟩
  · rw [if_pos h1]
  · rw [if_neg (by omega), if_pos h2]
  · rw [if_neg (by omega), if_neg (by omega), if_pos h2]
  · rw [if_neg (by omega), if_neg (by omega), if_neg (by omega)]

/-- Witness for C5: each of the four regimes, at a concrete elapsed time. -/
theorem sleep_or_yield_ladder_w :
    sleep_or_yield 500000 = WaitAction.spin ∧
    sleep_or_yield 5000000 = WaitAction.yieldNow ∧
    sleep_or_yield 50000000 = WaitAction.sleepFor (50000000 / 2) ∧
    sleep_or_yield 500000000 = WaitAction.sleepFor (msNS 100) :=
  ⟨(sleep_or_yield_ladder 500000).1 (by decide),
   (sleep_or_yield_ladder 5000000).2.1 (by decide) (by decide),
   (sleep_or_yield_ladder 50000000).2.2.1 (by decide) (by decide),
   (sleep_or_yield_ladder 500000000).2.2.2 (by decide)⟩

/-- C8: the envelope built from a log record stores the record fields in
owned storage, the move constructor transfers exactly those fields, and
reconstituting a record (on any previous record content) reproduces the
logger name, level, timestamp, and raw message text of the original. -/
theorem async_msg_roundtrip (r prior : log_msg) :
    ((async_msg.ofLogMsg r).fill_log_msg prior).logger_name = r.logger_name ∧
    ((async_msg.ofLogMsg r).fill_log_msg prior).level = r.level ∧
    ((async_msg.ofLogMsg r).fill_log_msg prior).time = r.time ∧
    ((async_msg.ofLogMsg r).fill_log_msg prior).raw = r.raw ∧
    async_msg.moveCtor (async_msg.ofLogMsg r) = async_msg.ofLogMsg r := by
  simp [async_msg.ofLogMsg, async_msg.fill_log_msg, log_msg.clear,
    async_msg.moveCtor, String.empty_append]

/-- C3: after the worker records a fault, the next `log` call raises exactly
that failure and clears the slot, and any later call on the cleared state
raises nothing (until the worker records another fault). -/
theorem failure_surfaced_exactly_once (s : HelperState) (w : String)
    (msg1 msg2 : log_msg) (att1 att2 : List Bool)
    (h : s.last_workerthread_ex = some w) (ha : s.active = true) :
    log s msg1 att1 =
      LogOutcome.raised (spdlog_ex.mk w) { s with last_workerthread_ex := none } ∧
    (∀ e t, log { s with last_workerthread_ex := none } msg2 att2 ≠
      LogOutcome.raised e t) :=
  ⟨log_slot_raises s msg1 att1 w h,
   fun e t => log_not_raised { s with last_workerthread_ex := none } msg2 att2
     rfl ha e t⟩

/-- Witness for C3 at a concrete state with a stored failure. -/
theorem failure_surfaced_exactly_once_w :
    ((⟨true, some "boom", []⟩ : HelperState).last_workerthread_ex = some "boom") ∧
    ((⟨true, some "boom", []⟩ : HelperState).active = true) ∧
    (log ⟨true, some "boom", []⟩ recB [true] =
        LogOutcome.raised (spdlog_ex.mk "boom") ⟨true, none, []⟩ ∧
      ∀ e t, log ⟨true, none, []⟩ recB [true] ≠ LogOutcome.raised e t) :=
  ⟨rfl, rfl,
   failure_surfaced_exactly_once ⟨true, some "boom", []⟩ "boom" recB recB
     [true] [true] rfl rfl⟩

/-- Counterexample for C1 as stated: with a stored worker failure, the next
`log` call with record B and a queue slot immediately available raises the
failure, and the resulting state still has an empty queue — B was not
enqueued (the raise aborts the call before the envelope is built), so B is
dropped rather than attempted. -/
theorem log_after_failure_drops_cex :
    log ⟨true, some "boom", []⟩ recB [true] =
      LogOutcome.raised (spdlog_ex.mk "boom") ⟨true, none, []⟩ ∧
    (⟨true, none, []⟩ : HelperState).q = [] := by
  exact ⟨rfl, rfl⟩

/-- C1 (amended): if the worker has recorded a failure while processing a
previous message A, the next call to `log` with a new record B raises that
failure to the caller of B and clears the slot, and B is not enqueued — the
call aborts before building the envelope, leaving the queue unchanged, so B
is dropped unless its caller logs it again. -/
theorem log_after_failure_raises_and_drops (s : HelperState) (msg : log_msg)
    (attempts : List Bool) (w : String)
    (h : s.last_workerthread_ex = some w) :
    log s msg attempts =
      LogOutcome.raised (spdlog_ex.mk w) { s with last_workerthread_ex := none } :=
  log_slot_raises s msg attempts w h

/-- Witness for amended C1 at a concrete state with a stored failure. -/
theorem log_after_failure_raises_and_drops_w :
    ((⟨true, some "oops", []⟩ : HelperState).last_workerthread_ex = some "oops") ∧
    log ⟨true, some "oops", []⟩ recB [true] =
      LogOutcome.raised (spdlog_ex.mk "oops") ⟨true, none, []⟩ :=
  ⟨rfl, log_after_failure_raises_and_drops ⟨true, some "oops", []⟩ recB [true]
    "oops" rfl⟩

/-- C4: when processing a dequeued message raises an error, `process_next_msg`
returns normally with `true` (the worker loop continues with the next
message), the message is consumed from the queue, and the failure slot is set
to the single descriptive failure — overwriting whatever (reported or not)
was stored there before. -/
theorem worker_error_contained (fmt : log_msg → Except String log_msg)
    (sinks : List (log_msg → Except String Unit)) (s : HelperState)
    (a : async_msg) (rest : List async_msg) (w : String)
    (hq : s.q = a :: rest) (herr : (process_msg fmt sinks a).2 = some w) :
    process_next_msg fmt sinks s =
      ({ s with q := rest, last_workerthread_ex := some (worker_ex_msg w) },
        true, some (a, (process_msg fmt sinks a).1)) := by
  rcases hpm : process_msg fmt sinks a with ⟨d, e⟩
  rw [hpm] at herr
  simp only at herr
  subst herr
  simp [process_next_msg, hq, hpm]

/-- Witness for C4: a formatter that always throws, a message in the queue
and a stale value in the failure slot; the worker consumes the message,
returns `true`, and overwrites the slot with the descriptive failure. -/
theorem worker_error_contained_w :
    ((⟨true, some "old", [msgA]⟩ : HelperState).q = [msgA]) ∧
    ((process_msg fmtFail [] msgA).2 = some "fmtboom") ∧
    process_next_msg fmtFail [] ⟨true, some "old", [msgA]⟩ =
      (⟨true, some (worker_ex_msg "fmtboom"), []⟩, true, some (msgA, [])) :=
  ⟨rfl, rfl,
   worker_error_contained fmtFail [] ⟨true, some "old", [msgA]⟩ msgA [] "fmtboom"
     rfl rfl⟩

/-- C10: if, while the worker processes a message, the formatter fails then
no sink receives the message, and if the sink at position k fails (all sinks
before it succeeding) then exactly the sinks at positions 0..k are invoked
with the message — the error aborts the remainder of the dispatch, so sinks
after the k-th never receive it. -/
theorem error_aborts_remaining_sinks (fmt : log_msg → Except String log_msg)
    (pre post : List (log_msg → Except String Unit))
    (fbad : log_msg → Except String Unit) (a : async_msg) (fm : log_msg)
    (w : String)
    (hfmt : fmt (a.fill_log_msg default) = Except.ok fm)
    (hpre : ∀ f ∈ pre, f fm = Except.ok ())
    (hbad : fbad fm = Except.error w) :
    (process_msg fmt (pre ++ fbad :: post) a).1 = List.range (pre.length + 1) ∧
    (∀ j ∈ (process_msg fmt (pre ++ fbad :: post) a).1, j ≤ pre.length) ∧
    (∀ (fmt2 : log_msg → Except String log_msg) (v : String)
        (sinks2 : List (log_msg → Except String Unit)),
      fmt2 (a.fill_log_msg default) = Except.error v →
      (process_msg fmt2 sinks2 a).1 = []) := by
  have h1 : process_msg fmt (pre ++ fbad :: post) a =
      (List.range' 0 (pre.length + 1), some w) := by
    simp only [process_msg, hfmt]
    exact run_sinks_from_prefix_ok fm pre post fbad w hpre hbad 0
  have hr : (process_msg fmt (pre ++ fbad :: post) a).1 =
      List.range (pre.length + 1) := by
    rw [h1, List.range_eq_range']
  refine ⟨hr, ?_, ?_⟩
  · intro j hj
    rw [hr, List.mem_range] at hj
    omega
  · intro fmt2 v sinks2 hv
    simp [process_msg, hv]

/-- Witness for C10: a succeeding sink, then a failing sink, then another
sink; exactly the first two are invoked; and a failing formatter reaches no
sink. -/
theorem error_aborts_remaining_sinks_w :
    (fmtId (msgA.fill_log_msg default) =
      Except.ok (msgA.fill_log_msg default)) ∧
    (∀ f ∈ [sinkOk], f (msgA.fill_log_msg default) = Except.ok ()) ∧
    (sinkFail (msgA.fill_log_msg default) = Except.error "sinkboom") ∧
    ((process_msg fmtId ([sinkOk] ++ sinkFail :: [sinkOk]) msgA).1 =
        List.range 2 ∧
      (∀ j ∈ (process_msg fmtId ([sinkOk] ++ sinkFail :: [sinkOk]) msgA).1,
        j ≤ 1) ∧
      (∀ (fmt2 : log_msg → Except String log_msg) (v : String)
          (sinks2 : List (log_msg → Except String Unit)),
        fmt2 (msgA.fill_log_msg default) = Except.error v →
        (process_msg fmt2 sinks2 msgA).1 = [])) :=
  ⟨rfl, by simp [sinkOk], rfl,
   error_aborts_remaining_sinks fmtId [sinkOk] [sinkOk] sinkFail msgA
     (msgA.fill_log_msg default) "sinkboom" rfl (by simp [sinkOk]) rfl⟩

/-- C7: a `log` call that passes the failure-slot and active-flag checks
returns exactly when an enqueue attempt succeeds (with the envelope appended
to the queue and one wait per preceding failed attempt), stays blocked for
any number of failed attempts without giving up, and never surfaces any
error to the caller — in particular a full queue is never reported as an
error. -/
theorem log_blocks_until_enqueue (s : HelperState) (msg : log_msg)
    (hslot : s.last_workerthread_ex = none) (hact : s.active = true) :
    (∀ pre post : List Bool, (∀ b ∈ pre, b = false) →
      log s msg (pre ++ true :: post) =
        LogOutcome.enqueued { s with q := s.q ++ [async_msg.ofLogMsg msg] }
          pre.length) ∧
    (∀ attempts : List Bool, (∀ b ∈ attempts, b = false) →
      log s msg attempts = LogOutcome.blocked) ∧
    (∀ attempts e t, log s msg attempts ≠ LogOutcome.raised e t) := by
  refine ⟨?_, ?_, fun attempts e t => log_not_raised s msg attempts hslot hact e t⟩
  · intro pre post hpre
    cases pre with
    | nil =>
      simp [log, throw_if_bad_worker_ok s hslot hact]
    | cons b pre2 =>
      have hb : b = false := hpre b (by simp)
      subst hb
      simp only [log, throw_if_bad_worker_ok s hslot hact, List.cons_append,
        Bool.false_eq_true, if_false]
      rw [log_retry_first_true s _ pre2 post 0
        (fun x hx => hpre x (by simp [hx]))]
      simp
  · intro attempts hall
    cases attempts with
    | nil => simp [log, throw_if_bad_worker_ok s hslot hact]
    | cons b rest =>
      have hb : b = false := hall b (by simp)
      subst hb
      simp only [log, throw_if_bad_worker_ok s hslot hact,
        Bool.false_eq_true, if_false]
      exact log_retry_all_false s _ rest 0 (fun x hx => hall x (by simp [hx]))

/-- Witness for C7: with a healthy engine, an attempt sequence failing once
then succeeding returns after one wait with the envelope enqueued; an
all-false sequence leaves the call blocked; and no raise happens. -/
theorem log_blocks_until_enqueue_w :
    ((⟨true, none, []⟩ : HelperState).last_workerthread_ex = none) ∧
    ((⟨true, none, []⟩ : HelperState).active = true) ∧
    ((∀ b ∈ [false], b = false) ∧
      log ⟨true, none, []⟩ recB ([false] ++ true :: []) =
        LogOutcome.enqueued ⟨true, none, [async_msg.ofLogMsg recB]⟩ 1) ∧
    log ⟨true, none, []⟩ recB [false, false, false] = LogOutcome.blocked ∧
    ∀ e t, log ⟨true, none, []⟩ recB [true] ≠ LogOutcome.raised e t :=
  ⟨rfl, rfl,
   ⟨by decide,
    (log_blocks_until_enqueue ⟨true, none, []⟩ recB rfl rfl).1 [false] []
      (by decide)⟩,
   (log_blocks_until_enqueue ⟨true, none, []⟩ recB rfl rfl).2.1
     [false, false, false] (by decide),
   fun e t => (log_blocks_until_enqueue ⟨true, none, []⟩ recB rfl rfl).2.2
     [true] e t⟩

/-- Counterexample for C6 as stated: in an execution whose last successful
queue operation happened at time 10 and whose current `log` call sees its
first try-enqueue fail at time 50, the source passes reference time 50 (the
moment of the failed first attempt, captured by clock::now() in `log`) to
the wait policy, not the last-success time 10 the claim prescribes. -/
theorem producer_wait_ref_cex :
    log_sleep_refs false 50 [true] ≠ log_sleep_refs_spec 10 false [true] := by
  decide

/-- C6 (amended): the worker supplies the wait policy with the time of its
last successful dequeue (initialized to the loop start), as the claim says;
a producer, however, supplies the time captured when the first enqueue
attempt of the current `log` call failed, held fixed across that call's
retries — not the time of the last successful queue operation. -/
theorem wait_ref_characterization :
    (∀ failNow retries r, r ∈ log_sleep_refs false failNow retries →
      r = failNow) ∧
    (∀ init pre post,
      worker_sleep_refs init (pre ++ PopEvent.emptyQ :: post) =
        worker_sleep_refs init pre ++
          last_pop_after init pre ::
            worker_sleep_refs (last_pop_after init pre) post) := by
  constructor
  · intro failNow retries r hr
    simp only [log_sleep_refs, Bool.false_eq_true, if_false] at hr
    exact retry_refs_mem failNow retries r hr
  · intro init pre post
    induction pre generalizing init with
    | nil => simp [worker_sleep_refs, last_pop_after]
    | cons e rest ih =>
      cases e <;> simp [worker_sleep_refs, last_pop_after, ih]

/-- Witness for amended C6: a producer retry sequence at concrete times, and
a worker event sequence with one successful pop (at time 3) followed by an
empty observation, whose wait reference is exactly 3. -/
theorem wait_ref_characterization_w :
    (50 ∈ log_sleep_refs false 50 [false, true]) ∧ ((50 : Nat) = 50) ∧
    worker_sleep_refs 7
        ([PopEvent.popped 3] ++ PopEvent.emptyQ :: [PopEvent.emptyQ]) =
      worker_sleep_refs 7 [PopEvent.popped 3] ++
        last_pop_after 7 [PopEvent.popped 3] ::
          worker_sleep_refs (last_pop_after 7 [PopEvent.popped 3])
            [PopEvent.emptyQ] :=
  ⟨by decide,
   wait_ref_characterization.1 50 [false, true] 50 (by decide),
   wait_ref_characterization.2 7 [PopEvent.popped 3] [PopEvent.emptyQ]⟩

/-- Draining with a healthy formatter and healthy sinks processes every
queued envelope in FIFO order, delivers each to every sink, and exits only
with an empty queue. -/
theorem drain_loop_all_ok (fmt : log_msg → Except String log_msg)
    (sinks : List (log_msg → Except String Unit))
    (hfmt : ∀ m, ∃ r, fmt m = Except.ok r)
    (hsnk : ∀ f ∈ sinks, ∀ m, f m = Except.ok ()) :
    ∀ l : List async_msg, ∀ s : HelperState, s.q = l →
      (drain_loop fmt sinks s).1.q = [] ∧
      (drain_loop fmt sinks s).2.map Prod.fst = s.q ∧
      ∀ p ∈ (drain_loop fmt sinks s).2, p.2 = List.range sinks.length := by
  intro l
  induction l with
  | nil =>
    intro s hs
    rw [drain_loop]
    simp [hs]
  | cons a tl ih =>
    intro s hs
    obtain ⟨fm, hfm⟩ := hfmt (a.fill_log_msg default)
    have hpm : process_msg fmt sinks a = (List.range' 0 sinks.length, none) := by
      simp only [process_msg, hfm]
      exact run_sinks_from_all_ok fm sinks (fun f hf => hsnk f hf fm) 0
    have hstep : process_next_msg fmt sinks s =
        ({ s with q := tl }, true, some (a, List.range' 0 sinks.length)) := by
      simp [process_next_msg, hs, hpm]
    have ihs := ih { s with q := tl } rfl
    rw [drain_loop, dif_neg (by simp [hs])]
    simp only [hstep, Option.toList_some]
    refine ⟨ihs.1, ?_, ?_⟩
    · simp only [List.map_cons, List.map_append, hs]
      simp only at ihs
      rw [ihs.2.1]
      simp
    · intro p hp
      simp only [Option.toList_some, List.singleton_append, List.mem_cons] at hp
      rcases hp with hp | hp
      · rw [hp]
        simp [List.range_eq_range']
      · exact ihs.2.2 p hp

/-- Counterexample for C2 as stated: a concrete interleaving in which
shutdown is initiated while one message (msgB) sits in the queue, and the
worker nevertheless transitions to Stopped with the queue still non-empty
and nothing delivered.  The worker observes the queue empty and returns to
the outer check; an in-flight producer then completes an enqueue of msgB;
join_worker sets the active flag to false; the worker re-reads the flag and
exits.  The final state is Stopped with q = [msgB] and delivered = []: the
queued message is lost. -/
theorem shutdown_message_loss_cex :
    Relation.ReflTransGen WStep
      { pc := WPc.outer, active := true, q := [], delivered := [] }
      { pc := WPc.stopped, active := false, q := [msgB], delivered := [] } ∧
    ([msgB] : List async_msg) ≠ [] := by
  constructor
  · have h1 : WStep { pc := WPc.outer, active := true, q := [], delivered := [] }
        { pc := WPc.inner, active := true, q := [], delivered := [] } :=
      WStep.outer_continue _ rfl rfl
    have h2 : WStep { pc := WPc.inner, active := true, q := [], delivered := [] }
        { pc := WPc.outer, active := true, q := [], delivered := [] } :=
      WStep.inner_empty _ rfl rfl
    have h3 : WStep { pc := WPc.outer, active := true, q := [], delivered := [] }
        { pc := WPc.outer, active := true, q := [msgB], delivered := [] } :=
      WStep.env_enqueue _ msgB
    have h4 : WStep { pc := WPc.outer, active := true, q := [msgB], delivered := [] }
        { pc := WPc.outer, active := false, q := [msgB], delivered := [] } :=
      WStep.env_shutdown _
    have h5 : WStep { pc := WPc.outer, active := false, q := [msgB], delivered := [] }
        { pc := WPc.stopped, active := false, q := [msgB], delivered := [] } :=
      WStep.outer_exit _ rfl rfl
    exact .head h1 (.head h2 (.head h3 (.head h4 (.head h5 .refl))))
  · simp

/-- With no interleaved environment activity, the worker drains the whole
queue in FIFO order and then stops: from inside the drain loop with the
active flag false, the final Stopped state with an empty queue and every
message delivered is reachable. -/
theorem worker_only_drain_reach (q : List async_msg) : ∀ d : List async_msg,
    Relation.ReflTransGen WorkerOnlyStep
      { pc := WPc.inner, active := false, q := q, delivered := d }
      { pc := WPc.stopped, active := false, q := [], delivered := d ++ q } := by
  induction q with
  | nil =>
    intro d
    have h1 : WorkerOnlyStep
        { pc := WPc.inner, active := false, q := [], delivered := d }
        { pc := WPc.outer, active := false, q := [], delivered := d } :=
      WorkerOnlyStep.inner_empty _ rfl rfl
    have h2 : WorkerOnlyStep
        { pc := WPc.outer, active := false, q := [], delivered := d }
        { pc := WPc.stopped, active := false, q := [], delivered := d } :=
      WorkerOnlyStep.outer_exit _ rfl rfl
    simpa using Relation.ReflTransGen.head h1
      (Relation.ReflTransGen.head h2 .refl)
  | cons a tl ih =>
    intro d
    have h1 : WorkerOnlyStep
        { pc := WPc.inner, active := false, q := a :: tl, delivered := d }
        { pc := WPc.inner, active := false, q := tl, delivered := d ++ [a] } :=
      WorkerOnlyStep.inner_pop _ a tl rfl rfl
    have h2 := Relation.ReflTransGen.head h1 (ih (d ++ [a]))
    simpa using h2

/-- Invariant of the worker-only drain execution: the flag stays false, the
delivered list concatenated with the queue is constant (no message is lost
or reordered), and the worker reaches the outer check or Stopped only with
an empty queue. -/
theorem worker_only_drain_inv (q d : List async_msg) (t : WorkerLTS)
    (ht : Relation.ReflTransGen WorkerOnlyStep
      { pc := WPc.inner, active := false, q := q, delivered := d } t) :
    t.active = false ∧ t.delivered ++ t.q = d ++ q ∧
    (t.pc = WPc.outer → t.q = []) ∧ (t.pc = WPc.stopped → t.q = []) := by
  induction ht with
  | refl =>
    refine ⟨rfl, rfl, fun h => ?_, fun h => ?_⟩ <;> simp at h
  | tail hpath hstep ih =>
    rename_i b c
    obtain ⟨ih1, ih2, ih3, ih4⟩ := ih
    cases hstep with
    | outer_continue h1 h2 =>
      rw [ih1] at h2
      exact absurd h2 (by simp)
    | outer_exit h1 h2 =>
      refine ⟨ih1, ih2, fun h => ?_, fun _ => ih3 h1⟩
      exact absurd h (by simp)
    | inner_pop a rest h1 h2 =>
      refine ⟨ih1, ?_, fun h => ?_, fun h => ?_⟩
      · show (b.delivered ++ [a]) ++ rest = d ++ q
        rw [List.append_assoc, List.singleton_append, ← h2]
        exact ih2
      · have h3 : b.pc = WPc.outer := h
        rw [h1] at h3
        exact absurd h3 (by simp)
      · have h3 : b.pc = WPc.stopped := h
        rw [h1] at h3
        exact absurd h3 (by simp)
    | inner_empty h1 h2 =>
      refine ⟨ih1, ih2, fun _ => h2, fun h => ?_⟩
      exact absurd h (by simp)

/-- C2 (amended): the worker can transition to Stopped only from the outer
flag check — never mid-drain — and such a transition changes neither the
queue nor the delivered list; if shutdown happens while the worker is inside
the drain loop and nothing further is enqueued, the worker dequeues and
dispatches every queued message in FIFO order and only then stops, with an
empty queue (and, with a healthy formatter and sinks, each drained message
reaches every sink).  Messages enqueued between the worker observing an
empty queue and its next flag check are not covered — they can be lost, as
the counterexample shows. -/
theorem graceful_shutdown_drain (q d : List async_msg) :
    (∀ s t, WStep s t → s.pc ≠ WPc.stopped → t.pc = WPc.stopped →
      s.pc = WPc.outer ∧ t.q = s.q ∧ t.delivered = s.delivered) ∧
    Relation.ReflTransGen WorkerOnlyStep
      { pc := WPc.inner, active := false, q := q, delivered := d }
      { pc := WPc.stopped, active := false, q := [], delivered := d ++ q } ∧
    (∀ t, Relation.ReflTransGen WorkerOnlyStep
        { pc := WPc.inner, active := false, q := q, delivered := d } t →
      t.pc = WPc.stopped → t.q = [] ∧ t.delivered = d ++ q) ∧
    (∀ (fmt : log_msg → Except String log_msg)
        (sinks : List (log_msg → Except String Unit)),
      (∀ m, ∃ r, fmt m = Except.ok r) →
      (∀ f ∈ sinks, ∀ m, f m = Except.ok ()) →
      ∀ s : HelperState,
        (drain_loop fmt sinks s).1.q = [] ∧
        (drain_loop fmt sinks s).2.map Prod.fst = s.q ∧
        ∀ p ∈ (drain_loop fmt sinks s).2, p.2 = List.range sinks.length) := by
  refine ⟨?_, ?_, ?_, ?_⟩
  · intro s t hst hs ht
    cases hst with
    | outer_continue h1 h2 => exact absurd ht (by simp)
    | outer_exit h1 h2 => exact ⟨h1, rfl, rfl⟩
    | inner_pop a rest h1 h2 =>
      have h3 : s.pc = WPc.stopped := ht
      rw [h1] at h3
      exact absurd h3 (by simp)
    | inner_empty h1 h2 => exact absurd ht (by simp)
    | env_enqueue a => exact absurd (show s.pc = WPc.stopped from ht) hs
    | env_shutdown => exact absurd (show s.pc = WPc.stopped from ht) hs
  · exact worker_only_drain_reach q d
  · intro t ht hstop
    have hinv := worker_only_drain_inv q d t ht
    have hq : t.q = [] := hinv.2.2.2 hstop
    refine ⟨hq, ?_⟩
    have := hinv.2.1
    rw [hq, List.append_nil] at this
    exact this
  · intro fmt sinks hf hs s
    exact drain_loop_all_ok fmt sinks hf hs s.q s rfl

/-- Witness for amended C2: a concrete Stopped-entering step comes from the
outer check and preserves queue and delivered list; and the concrete
worker-only drain of a one-message queue reaches Stopped with an empty queue
and that message delivered. -/
theorem graceful_shutdown_drain_w :
    (WStep { pc := WPc.outer, active := false, q := [msgA], delivered := [] }
        { pc := WPc.stopped, active := false, q := [msgA], delivered := [] } ∧
      (WPc.outer ≠ WPc.stopped) ∧ (WPc.stopped = WPc.stopped)) ∧
    ((WPc.outer = WPc.outer) ∧ ([msgA] : List async_msg) = [msgA] ∧
      ([] : List async_msg) = []) ∧
    Relation.ReflTransGen WorkerOnlyStep
      { pc := WPc.inner, active := false, q := [msgA], delivered := [] }
      { pc := WPc.stopped, active := false, q := [], delivered := [msgA] } :=
  ⟨⟨WStep.outer_exit _ rfl rfl, by decide, rfl⟩,
   (graceful_shutdown_drain [msgA] []).1
     { pc := WPc.outer, active := false, q := [msgA], delivered := [] }
     { pc := WPc.stopped, active := false, q := [msgA], delivered := [] }
     (WStep.outer_exit _ rfl rfl) (by decide) rfl,
   (graceful_shutdown_drain [msgA] []).2.1⟩

end Spdlog
